import Mathlib

/-!
Shallow embedding of the allocation-tracking layer in `src/memm.c`
(repository `franzpedd/memm`) and proofs about it.

Modelling conventions, fixed once for the whole file:

* Raw pointers (`void*`) are modelled as `Nat`; the value `0` is the null
  pointer.  `size_t` and the counters are modelled as `Nat` (the C program
  can only overflow them after more than `2^64` bytes of traffic, which
  the proofs below never rely on; the one subtraction the code performs,
  `total_allocated - total_freed`, is shown to be exact on every reachable
  state, see `memm_freed_le_allocated`).
* The underlying raw allocator (`malloc`/`calloc`/`realloc`/`free` from
  `stdlib.h`) is an external adapter.  Its answer for each call is passed
  in as an explicit argument (`adapter_result`, `0` meaning failure), and
  the internal `malloc` used by `memm_register_allocation` for record
  storage is modelled by the `storage_ok` flag.  Calls the code forwards
  to the adapter's `free` are returned as an explicit list.
* The global `g_memm` state is passed explicitly; `memm_init` is the
  zeroed state `memset(&g_memm, 0, ...)` produces.
* The bucket array `hash_table[MEMM_HASH_TABLE_SIZE]` is a function from
  bucket index to its singly linked chain (head first, matching the
  prepend-at-head insertion of the C code).
-/

/-- `MEMM_HASH_TABLE_SIZE` from `memm.h` (default configuration, a power
of two as the header's compile-time check demands). -/
def MEMM_HASH_TABLE_SIZE : Nat := 2048

/-- `memm_allocation_t` from `src/memm.c` (the `next` pointer is the list
structure of the bucket chain). -/
structure memm_allocation where
  ptr : Nat
  size : Nat
  file : String
  line : Int
  timestamp : Nat
deriving DecidableEq

/-- `memm_t` from `src/memm.c`: bucket array plus the five counters. -/
structure memm where
  hash_table : Nat → List memm_allocation
  total_allocated : Nat
  total_freed : Nat
  peak_memory : Nat
  allocation_count : Nat
  free_count : Nat

/-- The zeroed state produced by `memm_init` (`memset(&g_memm, 0, ...)`). -/
def memm_init : memm :=
  { hash_table := fun _ => []
    total_allocated := 0
    total_freed := 0
    peak_memory := 0
    allocation_count := 0
    free_count := 0 }

/-- `memm_hash_ptr`: `((size_t)ptr) & (MEMM_HASH_TABLE_SIZE - 1)`. -/
def memm_hash_ptr (ptr : Nat) : Nat :=
  ptr &&& (MEMM_HASH_TABLE_SIZE - 1)

/-- `memm_register_allocation`.  `storage_ok` models whether the internal
`malloc` for the record node succeeds (on failure the registration is
silently skipped).  `timestamp` models `time(NULL)`. -/
def memm_register_allocation (storage_ok : Bool) (ptr : Nat) (size : Nat)
    (file : String) (line : Int) (timestamp : Nat) (s : memm) : memm :=
  if ptr = 0 then s
  else if storage_ok = false then s
  else
    let hash := memm_hash_ptr ptr
    let alloc : memm_allocation :=
      { ptr := ptr, size := size, file := file, line := line, timestamp := timestamp }
    let s1 : memm :=
      { s with
        hash_table := Function.update s.hash_table hash (alloc :: s.hash_table hash)
        total_allocated := s.total_allocated + size
        allocation_count := s.allocation_count + 1 }
    let current_usage := s1.total_allocated - s1.total_freed
    if current_usage > s1.peak_memory then { s1 with peak_memory := current_usage } else s1

/-- The bucket-chain scan of `memm_unregister_allocation`: unlink the first
record whose `ptr` field equals `ptr`, returning it and the rest of the
chain, or `none` when no record matches. -/
def memm_remove_first (ptr : Nat) :
    List memm_allocation → Option (memm_allocation × List memm_allocation)
  | [] => none
  | a :: rest =>
    if a.ptr = ptr then some (a, rest)
    else
      match memm_remove_first ptr rest with
      | none => none
      | some (r, rest') => some (r, a :: rest')

/-- `memm_unregister_allocation`: returns the C function's `bool` result
together with the updated state (`file`/`line` are only used for logging
in the C code and are ignored here). -/
def memm_unregister_allocation (ptr : Nat) (_file : String) (_line : Int)
    (s : memm) : Bool × memm :=
  if ptr = 0 then (true, s)
  else
    let hash := memm_hash_ptr ptr
    match memm_remove_first ptr (s.hash_table hash) with
    | some (r, rest) =>
      (true,
       { s with
         hash_table := Function.update s.hash_table hash rest
         total_freed := s.total_freed + r.size
         free_count := s.free_count + 1 })
    | none => (false, s)

/-- `memm_malloc`: `adapter_result` is what the raw `malloc(size)` returned
(`0` = failure).  Returns the pointer handed to the caller and the new
state. -/
def memm_malloc (adapter_result : Nat) (size : Nat) (file : String) (line : Int)
    (timestamp : Nat) (storage_ok : Bool) (s : memm) : Nat × memm :=
  let ptr := adapter_result
  if ptr ≠ 0 then
    (ptr, memm_register_allocation storage_ok ptr size file line timestamp s)
  else
    (ptr, s)

/-- `memm_calloc`: registers `num * size` bytes on adapter success. -/
def memm_calloc (adapter_result : Nat) (num : Nat) (size : Nat) (file : String)
    (line : Int) (timestamp : Nat) (storage_ok : Bool) (s : memm) : Nat × memm :=
  let ptr := adapter_result
  if ptr ≠ 0 then
    (ptr, memm_register_allocation storage_ok ptr (num * size) file line timestamp s)
  else
    (ptr, s)

/-- `memm_realloc`: unregisters `ptr` first (when non-null), then consults
the adapter (`adapter_result` is what `realloc(ptr, size)` returned), and
registers the returned address on success. -/
def memm_realloc (ptr : Nat) (adapter_result : Nat) (size : Nat) (file : String)
    (line : Int) (timestamp : Nat) (storage_ok : Bool) (s : memm) : Nat × memm :=
  let s1 := if ptr ≠ 0 then (memm_unregister_allocation ptr file line s).2 else s
  let new_ptr := adapter_result
  if new_ptr ≠ 0 then
    (new_ptr, memm_register_allocation storage_ok new_ptr size file line timestamp s1)
  else
    (new_ptr, s1)

/-- `memm_free`: unregisters and, on both the found and the not-found
branch, forwards exactly one `free(ptr)` to the adapter.  The second
component lists the pointers forwarded to the adapter's `free`. -/
def memm_free (ptr : Nat) (file : String) (line : Int) (s : memm) :
    memm × List Nat :=
  let found := memm_unregister_allocation ptr file line s
  if found.1 then (found.2, [ptr]) else (found.2, [ptr])

/-- `memm_get_current_usage`. -/
def memm_get_current_usage (s : memm) : Nat :=
  s.total_allocated - s.total_freed

/-- `memm_get_peak_usage`. -/
def memm_get_peak_usage (s : memm) : Nat :=
  s.peak_memory

/-- `memm_get_allocation_count`. -/
def memm_get_allocation_count (s : memm) : Nat :=
  s.allocation_count

/-- `memm_get_free_count`. -/
def memm_get_free_count (s : memm) : Nat :=
  s.free_count

/-- Registry iteration order of the report functions: buckets in index
order `0 .. MEMM_HASH_TABLE_SIZE - 1`, each chain head (most recently
registered) first. -/
def memm_iterate (s : memm) : List memm_allocation :=
  ((List.range MEMM_HASH_TABLE_SIZE).map s.hash_table).flatten

/-- One call of the tracked API, carrying the adapter's answers. -/
inductive MemmOp where
  | malloc (adapter_result size : Nat) (file : String) (line : Int)
      (timestamp : Nat) (storage_ok : Bool)
  | calloc (adapter_result num size : Nat) (file : String) (line : Int)
      (timestamp : Nat) (storage_ok : Bool)
  | realloc (ptr adapter_result size : Nat) (file : String) (line : Int)
      (timestamp : Nat) (storage_ok : Bool)
  | free (ptr : Nat) (file : String) (line : Int)

/-- State effect of one tracked call. -/
def memm_step (o : MemmOp) (s : memm) : memm :=
  match o with
  | .malloc a size f l t ok => (memm_malloc a size f l t ok s).2
  | .calloc a num size f l t ok => (memm_calloc a num size f l t ok s).2
  | .realloc p a size f l t ok => (memm_realloc p a size f l t ok s).2
  | .free p f l => (memm_free p f l s).1

/-- Run a sequence of tracked calls from the initial zeroed state. -/
def memm_run (ops : List MemmOp) : memm :=
  ops.foldl (fun s o => memm_step o s) memm_init

/-! ### Basic facts about the registry operations -/

theorem memm_remove_first_of_not_mem (p : Nat) (l : List memm_allocation)
    (h : ∀ a ∈ l, a.ptr ≠ p) : memm_remove_first p l = none := by
  induction l with
  | nil => rfl
  | cons a rest ih =>
    have ha : a.ptr ≠ p := h a (List.mem_cons_self a rest)
    have hrest : memm_remove_first p rest = none :=
      ih (fun b hb => h b (List.mem_cons_of_mem a hb))
    simp [memm_remove_first, ha, hrest]

theorem memm_register_allocation_spec (p S : Nat) (f : String) (l : Int) (t : Nat)
    (s : memm) (hp : p ≠ 0) :
    memm_register_allocation true p S f l t s =
      { hash_table := Function.update s.hash_table (memm_hash_ptr p)
          ({ ptr := p, size := S, file := f, line := l, timestamp := t } ::
            s.hash_table (memm_hash_ptr p))
        total_allocated := s.total_allocated + S
        total_freed := s.total_freed
        peak_memory := max s.peak_memory (s.total_allocated + S - s.total_freed)
        allocation_count := s.allocation_count + 1
        free_count := s.free_count } := by
  simp only [memm_register_allocation, if_neg hp]
  rw [if_neg (by decide : ¬(true = false))]
  split
  · next h => rw [Nat.max_eq_right (Nat.le_of_lt h)]
  · next h => rw [Nat.max_eq_left (Nat.not_lt.mp h)]

theorem memm_unregister_allocation_found (p : Nat) (f : String) (l : Int)
    (s : memm) (r : memm_allocation) (rest : List memm_allocation) (hp : p ≠ 0)
    (hrm : memm_remove_first p (s.hash_table (memm_hash_ptr p)) = some (r, rest)) :
    memm_unregister_allocation p f l s =
      (true,
       { s with
         hash_table := Function.update s.hash_table (memm_hash_ptr p) rest
         total_freed := s.total_freed + r.size
         free_count := s.free_count + 1 }) := by
  simp [memm_unregister_allocation, hp, hrm]

theorem memm_unregister_allocation_not_found (p : Nat) (f : String) (l : Int)
    (s : memm) (hp : p ≠ 0)
    (hrm : memm_remove_first p (s.hash_table (memm_hash_ptr p)) = none) :
    memm_unregister_allocation p f l s = (false, s) := by
  simp [memm_unregister_allocation, hp, hrm]

theorem memm_mem_iterate (s : memm) (a : memm_allocation) :
    a ∈ memm_iterate s ↔ ∃ i, i < MEMM_HASH_TABLE_SIZE ∧ a ∈ s.hash_table i := by
  simp [memm_iterate, List.mem_flatten]

/-! ### Claim theorems: tracked API behavior -/

/-- C6: when the underlying adapter's `malloc` fails (returns null),
`memm_malloc` returns null, registers nothing, and leaves every counter
and the registry unchanged (the state is returned untouched). -/
theorem memm_malloc_adapter_failure (size : Nat) (file : String) (line : Int)
    (timestamp : Nat) (storage_ok : Bool) (s : memm) :
    memm_malloc 0 size file line timestamp storage_ok s = (0, s) := by
  simp [memm_malloc]

/-- C10: for a null address, `memm_free` leaves the registry and all five
counters unchanged (in particular `free_count`), even though the internal
`memm_unregister_allocation` reports success (`true`), and the underlying
`free` is still invoked exactly once, on the null address. -/
theorem memm_free_null_spec (s : memm) (file : String) (line : Int) :
    memm_unregister_allocation 0 file line s = (true, s) ∧
    (memm_free 0 file line s).1 = s ∧
    (memm_free 0 file line s).1.free_count = s.free_count ∧
    (memm_free 0 file line s).2 = [0] := by
  refine ⟨rfl, ?_, ?_, ?_⟩ <;> simp [memm_free, memm_unregister_allocation]

/-- C4: for a non-null address with no live record anywhere in the
registry, `memm_free` makes `memm_unregister_allocation` return `false`,
leaves the whole state (all five counters and every bucket chain)
unchanged, and still forwards exactly one `free` call to the underlying
allocator. -/
theorem memm_free_untracked_spec (s : memm) (p : Nat) (file : String) (line : Int)
    (hp : p ≠ 0) (h : ∀ i : Nat, ∀ a ∈ s.hash_table i, a.ptr ≠ p) :
    (memm_unregister_allocation p file line s).1 = false ∧
    (memm_unregister_allocation p file line s).2 = s ∧
    memm_free p file line s = (s, [p]) := by
  have hrm : memm_remove_first p (s.hash_table (memm_hash_ptr p)) = none :=
    memm_remove_first_of_not_mem p _ (h _)
  have hu := memm_unregister_allocation_not_found p file line s hp hrm
  refine ⟨by rw [hu], by rw [hu], ?_⟩
  simp [memm_free, hu]

/-- C4 witness at a concrete input: the initial state with address 7. -/
theorem memm_free_untracked_spec_witness :
    (memm_unregister_allocation 7 "f" 1 memm_init).1 = false ∧
    (memm_unregister_allocation 7 "f" 1 memm_init).2 = memm_init ∧
    memm_free 7 "f" 1 memm_init = (memm_init, [7]) :=
  memm_free_untracked_spec memm_init 7 "f" 1 (by decide)
    (by intro i a ha; simp [memm_init] at ha)

/-- C5: a successful `memm_malloc` (fresh non-null address, record storage
obtained) followed immediately by `memm_free` of the returned address
leaves `allocation_count - free_count` at its value before the pair, and
the released address is not produced by iterating the registry. -/
theorem memm_alloc_free_roundtrip (s : memm) (p S : Nat) (file : String)
    (line : Int) (timestamp : Nat) (hp : p ≠ 0)
    (hfresh : ∀ i : Nat, ∀ a ∈ s.hash_table i, a.ptr ≠ p) :
    (memm_malloc p S file line timestamp true s).1 = p ∧
    ((memm_free p file line (memm_malloc p S file line timestamp true s).2).1.allocation_count
      - (memm_free p file line (memm_malloc p S file line timestamp true s).2).1.free_count
      = s.allocation_count - s.free_count) ∧
    ∀ a ∈ memm_iterate
        (memm_free p file line (memm_malloc p S file line timestamp true s).2).1,
      a.ptr ≠ p := by
  have hm : (memm_malloc p S file line timestamp true s).2 =
      memm_register_allocation true p S file line timestamp s := by
    simp [memm_malloc, hp]
  set rec : memm_allocation :=
    { ptr := p, size := S, file := file, line := line, timestamp := timestamp } with hrec
  have hreg := memm_register_allocation_spec p S file line timestamp s hp
  set s1 := memm_register_allocation true p S file line timestamp s with hs1
  have hbucket : s1.hash_table (memm_hash_ptr p) =
      rec :: s.hash_table (memm_hash_ptr p) := by
    rw [hreg]; simp
  have hrm : memm_remove_first p (s1.hash_table (memm_hash_ptr p)) =
      some (rec, s.hash_table (memm_hash_ptr p)) := by
    rw [hbucket]; simp [memm_remove_first]
  have hu := memm_unregister_allocation_found p file line s1 rec
    (s.hash_table (memm_hash_ptr p)) hp hrm
  have hfree : (memm_free p file line s1).1 =
      { s1 with
        hash_table := Function.update s1.hash_table (memm_hash_ptr p)
          (s.hash_table (memm_hash_ptr p))
        total_freed := s1.total_freed + rec.size
        free_count := s1.free_count + 1 } := by
    simp [memm_free, hu]
  have htbl : Function.update s1.hash_table (memm_hash_ptr p)
      (s.hash_table (memm_hash_ptr p)) = s.hash_table := by
    rw [hreg]
    simp [Function.update_idem, Function.update_eq_self]
  refine ⟨by simp [memm_malloc, hp], ?_, ?_⟩
  · rw [hm, hfree]
    have hac : s1.allocation_count = s.allocation_count + 1 := by rw [hreg]
    have hfc : s1.free_count = s.free_count := by rw [hreg]
    simp only [hac, hfc]
    omega
  · intro a ha
    rw [hm, hfree] at ha
    have : a ∈ memm_iterate
        { s1 with
          hash_table := s.hash_table
          total_freed := s1.total_freed + rec.size
          free_count := s1.free_count + 1 } := by
      rw [← htbl]; exact ha
    rw [memm_mem_iterate] at this
    obtain ⟨i, _, hai⟩ := this
    exact hfresh i a hai

/-- C5 witness at a concrete input: allocate 5 bytes at address 3 in the
initial state, then free it. -/
theorem memm_alloc_free_roundtrip_witness :
    (memm_malloc 3 5 "f" 1 0 true memm_init).1 = 3 ∧
    ((memm_free 3 "f" 1 (memm_malloc 3 5 "f" 1 0 true memm_init).2).1.allocation_count
      - (memm_free 3 "f" 1 (memm_malloc 3 5 "f" 1 0 true memm_init).2).1.free_count
      = memm_init.allocation_count - memm_init.free_count) ∧
    ∀ a ∈ memm_iterate
        (memm_free 3 "f" 1 (memm_malloc 3 5 "f" 1 0 true memm_init).2).1,
      a.ptr ≠ 3 :=
  memm_alloc_free_roundtrip memm_init 3 5 "f" 1 0 (by decide)
    (by intro i a ha; simp [memm_init] at ha)

/-! ### The registry invariant over traces -/

theorem memm_hash_ptr_eq_mod (p : Nat) :
    memm_hash_ptr p = p % MEMM_HASH_TABLE_SIZE := by
  have h : MEMM_HASH_TABLE_SIZE = 2 ^ 11 := by decide
  rw [memm_hash_ptr, h, Nat.and_pow_two_sub_one_eq_mod]

theorem memm_hash_ptr_lt (p : Nat) :
    memm_hash_ptr p < MEMM_HASH_TABLE_SIZE := by
  rw [memm_hash_ptr_eq_mod]
  exact Nat.mod_lt _ (by decide)

/-- Total size of the live records (sum over all buckets). -/
def memm_live_bytes (s : memm) : Nat :=
  ∑ i ∈ Finset.range MEMM_HASH_TABLE_SIZE,
    ((s.hash_table i).map memm_allocation.size).sum

/-- Reachable-state invariant: the counters account exactly for the live
records, the peak dominates the current usage, and every record sits in
its home bucket. -/
def memm_Inv (s : memm) : Prop :=
  s.total_freed + memm_live_bytes s = s.total_allocated ∧
  s.total_allocated - s.total_freed ≤ s.peak_memory ∧
  ∀ i : Nat, ∀ a ∈ s.hash_table i, a.ptr ≠ 0 ∧ memm_hash_ptr a.ptr = i

theorem memm_sum_update (F : List memm_allocation → Nat)
    (tbl : Nat → List memm_allocation) (hidx : Nat) (v : List memm_allocation)
    (hh : hidx ∈ Finset.range MEMM_HASH_TABLE_SIZE) :
    (∑ i ∈ Finset.range MEMM_HASH_TABLE_SIZE, F (Function.update tbl hidx v i))
      + F (tbl hidx)
      = (∑ i ∈ Finset.range MEMM_HASH_TABLE_SIZE, F (tbl i)) + F v := by
  have h1 := Finset.add_sum_erase (Finset.range MEMM_HASH_TABLE_SIZE)
    (fun i => F (Function.update tbl hidx v i)) hh
  have h2 := Finset.add_sum_erase (Finset.range MEMM_HASH_TABLE_SIZE)
    (fun i => F (tbl i)) hh
  beta_reduce at h1 h2
  rw [Function.update_same] at h1
  have h3 : ∑ x ∈ (Finset.range MEMM_HASH_TABLE_SIZE).erase hidx,
      F (Function.update tbl hidx v x)
      = ∑ x ∈ (Finset.range MEMM_HASH_TABLE_SIZE).erase hidx, F (tbl x) :=
    Finset.sum_congr rfl (fun i hi => by
      rw [Function.update_noteq (Finset.ne_of_mem_erase hi)])
  omega

theorem memm_live_update (tbl : Nat → List memm_allocation) (hidx : Nat)
    (v : List memm_allocation)
    (hh : hidx ∈ Finset.range MEMM_HASH_TABLE_SIZE) :
    (∑ i ∈ Finset.range MEMM_HASH_TABLE_SIZE,
        ((Function.update tbl hidx v i).map memm_allocation.size).sum)
      + ((tbl hidx).map memm_allocation.size).sum
      = (∑ i ∈ Finset.range MEMM_HASH_TABLE_SIZE,
          ((tbl i).map memm_allocation.size).sum)
      + (v.map memm_allocation.size).sum :=
  memm_sum_update (fun c => (c.map memm_allocation.size).sum) tbl hidx v hh

theorem memm_remove_first_spec (p : Nat) (l : List memm_allocation)
    (r : memm_allocation) (rest : List memm_allocation)
    (h : memm_remove_first p l = some (r, rest)) :
    r.ptr = p ∧
    (l.map memm_allocation.size).sum = r.size + (rest.map memm_allocation.size).sum ∧
    (∀ a ∈ rest, a ∈ l) := by
  induction l generalizing rest with
  | nil => simp [memm_remove_first] at h
  | cons a tl ih =>
    by_cases hap : a.ptr = p
    · rw [memm_remove_first, if_pos hap] at h
      simp only [Option.some.injEq, Prod.mk.injEq] at h
      obtain ⟨h1, h2⟩ := h
      subst h1; subst h2
      exact ⟨hap, by simp, fun b hb => List.mem_cons_of_mem a hb⟩
    · rw [memm_remove_first, if_neg hap] at h
      cases hrec : memm_remove_first p tl with
      | none => rw [hrec] at h; exact absurd h (by simp)
      | some pr =>
        obtain ⟨r', rest'⟩ := pr
        rw [hrec] at h
        simp only [Option.some.injEq, Prod.mk.injEq] at h
        obtain ⟨hr, hrest⟩ := h
        subst hr
        obtain ⟨ih1, ih2, ih3⟩ := ih rest' hrec
        subst hrest
        refine ⟨ih1, by simp only [List.map_cons, List.sum_cons]; omega, ?_⟩
        intro b hb
        rcases List.mem_cons.mp hb with hb | hb
        · exact hb ▸ List.mem_cons_self a tl
        · exact List.mem_cons_of_mem a (ih3 b hb)

theorem memm_register_allocation_inv (ok : Bool) (p S : Nat) (f : String)
    (l : Int) (t : Nat) (s : memm) (hs : memm_Inv s) :
    memm_Inv (memm_register_allocation ok p S f l t s) := by
  by_cases hp : p = 0
  · rw [memm_register_allocation, if_pos hp]; exact hs
  cases ok with
  | false => rw [memm_register_allocation, if_neg hp, if_pos rfl]; exact hs
  | true =>
    rw [memm_register_allocation_spec p S f l t s hp]
    obtain ⟨hsum, hpeak, hbkt⟩ := hs
    have hmem : memm_hash_ptr p ∈ Finset.range MEMM_HASH_TABLE_SIZE :=
      Finset.mem_range.mpr (memm_hash_ptr_lt p)
    have hupd := memm_live_update s.hash_table (memm_hash_ptr p)
      ({ ptr := p, size := S, file := f, line := l, timestamp := t } ::
        s.hash_table (memm_hash_ptr p)) hmem
    refine ⟨?_, ?_, ?_⟩
    · show s.total_freed + (∑ i ∈ Finset.range MEMM_HASH_TABLE_SIZE,
          ((Function.update s.hash_table (memm_hash_ptr p)
            ({ ptr := p, size := S, file := f, line := l, timestamp := t } ::
              s.hash_table (memm_hash_ptr p)) i).map memm_allocation.size).sum)
        = s.total_allocated + S
      unfold memm_live_bytes at hsum
      simp only [List.map_cons, List.sum_cons] at hupd
      omega
    · exact le_max_right _ _
    · intro i a ha
      simp only [] at ha
      by_cases hi : i = memm_hash_ptr p
      · subst hi
        rw [Function.update_same] at ha
        rcases List.mem_cons.mp ha with ha | ha
        · subst ha; exact ⟨hp, rfl⟩
        · exact hbkt _ a ha
      · rw [Function.update_noteq hi] at ha
        exact hbkt i a ha

theorem memm_unregister_allocation_inv (p : Nat) (f : String) (l : Int)
    (s : memm) (hs : memm_Inv s) :
    memm_Inv ((memm_unregister_allocation p f l s).2) := by
  by_cases hp : p = 0
  · rw [memm_unregister_allocation, if_pos hp]; exact hs
  cases hrm : memm_remove_first p (s.hash_table (memm_hash_ptr p)) with
  | none => rw [memm_unregister_allocation_not_found p f l s hp hrm]; exact hs
  | some pr =>
    obtain ⟨r, rest⟩ := pr
    rw [memm_unregister_allocation_found p f l s r rest hp hrm]
    obtain ⟨hsum, hpeak, hbkt⟩ := hs
    obtain ⟨hptr, hchain, hsub⟩ := memm_remove_first_spec p _ r rest hrm
    have hmem : memm_hash_ptr p ∈ Finset.range MEMM_HASH_TABLE_SIZE :=
      Finset.mem_range.mpr (memm_hash_ptr_lt p)
    have hupd := memm_live_update s.hash_table (memm_hash_ptr p) rest hmem
    refine ⟨?_, ?_, ?_⟩
    · show s.total_freed + r.size + (∑ i ∈ Finset.range MEMM_HASH_TABLE_SIZE,
          ((Function.update s.hash_table (memm_hash_ptr p) rest i).map
            memm_allocation.size).sum)
        = s.total_allocated
      unfold memm_live_bytes at hsum
      omega
    · show s.total_allocated - (s.total_freed + r.size) ≤ s.peak_memory
      omega
    · intro i a ha
      simp only [] at ha
      by_cases hi : i = memm_hash_ptr p
      · subst hi
        rw [Function.update_same] at ha
        exact hbkt _ a (hsub a ha)
      · rw [Function.update_noteq hi] at ha
        exact hbkt i a ha

theorem memm_free_fst (p : Nat) (f : String) (l : Int) (s : memm) :
    (memm_free p f l s).1 = (memm_unregister_allocation p f l s).2 := by
  simp only [memm_free]
  split <;> rfl

theorem memm_step_inv (o : MemmOp) (s : memm) (hs : memm_Inv s) :
    memm_Inv (memm_step o s) := by
  cases o with
  | malloc a size f l t ok =>
    show memm_Inv (memm_malloc a size f l t ok s).2
    simp only [memm_malloc]
    split
    · exact memm_register_allocation_inv ok a size f l t s hs
    · exact hs
  | calloc a num size f l t ok =>
    show memm_Inv (memm_calloc a num size f l t ok s).2
    simp only [memm_calloc]
    split
    · exact memm_register_allocation_inv ok a (num * size) f l t s hs
    · exact hs
  | realloc p a size f l t ok =>
    show memm_Inv (memm_realloc p a size f l t ok s).2
    simp only [memm_realloc]
    have h1 : memm_Inv (if p ≠ 0 then (memm_unregister_allocation p f l s).2 else s) := by
      split
      · exact memm_unregister_allocation_inv p f l s hs
      · exact hs
    split
    · exact memm_register_allocation_inv ok a size f l t _ h1
    · exact h1
  | free p f l =>
    show memm_Inv (memm_free p f l s).1
    rw [memm_free_fst]
    exact memm_unregister_allocation_inv p f l s hs

theorem memm_Inv_init : memm_Inv memm_init := by
  refine ⟨?_, ?_, ?_⟩ <;> simp [memm_init, memm_live_bytes]

theorem memm_run_inv (ops : List MemmOp) : memm_Inv (memm_run ops) := by
  have key : ∀ (ops : List MemmOp) (s : memm), memm_Inv s →
      memm_Inv (ops.foldl (fun s o => memm_step o s) s) := by
    intro ops
    induction ops with
    | nil => intro s hs; exact hs
    | cons o rest ih => intro s hs; exact ih _ (memm_step_inv o s hs)
  exact key ops memm_init memm_Inv_init

theorem memm_register_peak_mono (ok : Bool) (p S : Nat) (f : String) (l : Int)
    (t : Nat) (s : memm) :
    s.peak_memory ≤ (memm_register_allocation ok p S f l t s).peak_memory := by
  by_cases hp : p = 0
  · simp [memm_register_allocation, hp]
  cases ok with
  | false => simp [memm_register_allocation, hp]
  | true =>
    rw [memm_register_allocation_spec p S f l t s hp]
    exact le_max_left _ _

theorem memm_unregister_peak (p : Nat) (f : String) (l : Int) (s : memm) :
    ((memm_unregister_allocation p f l s).2).peak_memory = s.peak_memory := by
  unfold memm_unregister_allocation
  by_cases hp : p = 0
  · rw [if_pos hp]
  · rw [if_neg hp]
    simp only []
    split <;> rfl

theorem memm_peak_step_mono (o : MemmOp) (s : memm) :
    s.peak_memory ≤ (memm_step o s).peak_memory := by
  cases o with
  | malloc a size f l t ok =>
    show s.peak_memory ≤ (memm_malloc a size f l t ok s).2.peak_memory
    simp only [memm_malloc]
    split
    · exact memm_register_peak_mono ok a size f l t s
    · exact le_refl _
  | calloc a num size f l t ok =>
    show s.peak_memory ≤ (memm_calloc a num size f l t ok s).2.peak_memory
    simp only [memm_calloc]
    split
    · exact memm_register_peak_mono ok a (num * size) f l t s
    · exact le_refl _
  | realloc p a size f l t ok =>
    show s.peak_memory ≤ (memm_realloc p a size f l t ok s).2.peak_memory
    simp only [memm_realloc]
    have h1 : s.peak_memory
        = (if p ≠ 0 then (memm_unregister_allocation p f l s).2 else s).peak_memory := by
      split
      · exact (memm_unregister_peak p f l s).symm
      · rfl
    split
    · exact le_trans (le_of_eq h1) (memm_register_peak_mono ok a size f l t _)
    · exact le_of_eq h1
  | free p f l =>
    show s.peak_memory ≤ (memm_free p f l s).1.peak_memory
    rw [memm_free_fst, memm_unregister_peak]

/-! ### Claim theorems: counters and hashing invariants -/

/-- C2: over every sequence of tracked calls from the initial zeroed
state, `peak_memory` never decreases at any step, and after every
operation `peak_memory` is at least the current usage
`total_allocated - total_freed`. -/
theorem memm_peak_monotone_ge_usage (ops : List MemmOp) :
    (∀ o : MemmOp, (memm_run ops).peak_memory ≤ (memm_run (ops ++ [o])).peak_memory) ∧
    memm_get_current_usage (memm_run ops) ≤ (memm_run ops).peak_memory := by
  constructor
  · intro o
    have h : memm_run (ops ++ [o]) = memm_step o (memm_run ops) := by
      simp [memm_run, List.foldl_append]
    rw [h]
    exact memm_peak_step_mono o _
  · exact (memm_run_inv ops).2.1

/-- C9: after every sequence of tracked calls from the initial zeroed
state, `total_freed ≤ total_allocated`, so the `size_t` subtraction
`total_allocated - total_freed` behind `memm_get_current_usage` never
underflows. -/
theorem memm_freed_le_allocated (ops : List MemmOp) :
    (memm_run ops).total_freed ≤ (memm_run ops).total_allocated := by
  have h := (memm_run_inv ops).1
  omega

/-- C8: the hash is the address masked with `MEMM_HASH_TABLE_SIZE - 1`,
i.e. the address value modulo the power-of-two table size, and after any
sequence of register/unregister operations every live record with address
`a` resides in bucket `memm_hash_ptr a`. -/
theorem memm_records_in_home_bucket :
    (∀ p : Nat, memm_hash_ptr p = p % MEMM_HASH_TABLE_SIZE) ∧
    (∀ (ops : List MemmOp) (i : Nat), ∀ a ∈ (memm_run ops).hash_table i,
      memm_hash_ptr a.ptr = i) := by
  refine ⟨memm_hash_ptr_eq_mod, ?_⟩
  intro ops i a ha
  exact ((memm_run_inv ops).2.2 i a ha).2

/-- C8 witness: a concrete trace, bucket and record. -/
theorem memm_records_in_home_bucket_witness :
    memm_hash_ptr 12345 = 12345 % MEMM_HASH_TABLE_SIZE ∧
    memm_hash_ptr (memm_allocation.mk 5 7 "f" 1 0).ptr = 5 :=
  ⟨memm_records_in_home_bucket.1 12345,
   memm_records_in_home_bucket.2 [.malloc 5 7 "f" 1 0 true] 5
     (memm_allocation.mk 5 7 "f" 1 0) (by decide)⟩

/-! ### Claim C3: realloc of a tracked address -/

theorem memm_remove_first_mem (p : Nat) (l : List memm_allocation)
    (r : memm_allocation) (rest : List memm_allocation)
    (h : memm_remove_first p l = some (r, rest)) : r ∈ l := by
  induction l generalizing rest with
  | nil => simp [memm_remove_first] at h
  | cons a tl ih =>
    by_cases hap : a.ptr = p
    · rw [memm_remove_first, if_pos hap] at h
      simp only [Option.some.injEq, Prod.mk.injEq] at h
      obtain ⟨h1, h2⟩ := h
      subst h1
      exact List.mem_cons_self a tl
    · rw [memm_remove_first, if_neg hap] at h
      cases hrec : memm_remove_first p tl with
      | none => rw [hrec] at h; exact absurd h (by simp)
      | some pr =>
        obtain ⟨r', rest'⟩ := pr
        rw [hrec] at h
        simp only [Option.some.injEq, Prod.mk.injEq] at h
        obtain ⟨h1, h2⟩ := h
        subst h1
        exact List.mem_cons_of_mem a (ih rest' hrec)

theorem memm_remove_first_of_countP (p : Nat) (l : List memm_allocation)
    (h : l.countP (fun a => a.ptr == p) = 1) :
    ∃ r rest, memm_remove_first p l = some (r, rest) ∧ ∀ a ∈ rest, a.ptr ≠ p := by
  induction l with
  | nil => simp [List.countP_nil] at h
  | cons a tl ih =>
    by_cases hap : a.ptr = p
    · simp only [List.countP_cons, hap, beq_self_eq_true, if_pos, if_true] at h
      have htl : tl.countP (fun a => a.ptr == p) = 0 := by omega
      refine ⟨a, tl, ?_, ?_⟩
      · rw [memm_remove_first, if_pos hap]
      · intro b hb
        have hb0 := List.countP_eq_zero.mp htl b hb
        simpa using hb0
    · have hbeq : (a.ptr == p) = false := by
        simp [hap]
      simp only [List.countP_cons, hbeq, Bool.false_eq_true, if_false,
        Nat.add_zero] at h
      obtain ⟨r, rest', hrm, hclean⟩ := ih h
      refine ⟨r, a :: rest', ?_, ?_⟩
      · rw [memm_remove_first, if_neg hap, hrm]
      · intro b hb
        rcases List.mem_cons.mp hb with hb | hb
        · exact hb ▸ hap
        · exact hclean b hb

theorem memm_realloc_eq (p a S : Nat) (f : String) (l : Int) (t : Nat)
    (ok : Bool) (s : memm) (hp : p ≠ 0) :
    memm_realloc p a S f l t ok s =
      if a ≠ 0
      then (a, memm_register_allocation ok a S f l t
              (memm_unregister_allocation p f l s).2)
      else (a, (memm_unregister_allocation p f l s).2) := by
  simp only [memm_realloc, if_pos hp]

/-- C3: for a tracked non-null address `p` whose unique live record has
size `Sold`, `memm_realloc` first unregisters the old record (so
`total_freed` grows by exactly `Sold` and `free_count` by one); on adapter
failure it returns null and the registry holds a record for neither the
old address nor any new one; on adapter success it registers the returned
address with size `Snew` (one register: `total_allocated` grows by exactly
`Snew` and `allocation_count` by one, and the new record heads its home
bucket). -/
theorem memm_realloc_spec (s : memm) (p new_ptr Sold Snew : Nat) (f : String)
    (l : Int) (t : Nat) (hp : p ≠ 0)
    (hcount : (s.hash_table (memm_hash_ptr p)).countP (fun a => a.ptr == p) = 1)
    (honly : ∀ i : Nat, ∀ a ∈ s.hash_table i, a.ptr = p →
      i = memm_hash_ptr p ∧ a.size = Sold) :
    (new_ptr = 0 →
      (memm_realloc p 0 Snew f l t true s).1 = 0 ∧
      ((memm_realloc p 0 Snew f l t true s).2).total_freed = s.total_freed + Sold ∧
      ((memm_realloc p 0 Snew f l t true s).2).free_count = s.free_count + 1 ∧
      ∀ i : Nat, ∀ a ∈ ((memm_realloc p 0 Snew f l t true s).2).hash_table i,
        a.ptr ≠ p) ∧
    (new_ptr ≠ 0 →
      (memm_realloc p new_ptr Snew f l t true s).1 = new_ptr ∧
      ((memm_realloc p new_ptr Snew f l t true s).2).total_freed
        = s.total_freed + Sold ∧
      ((memm_realloc p new_ptr Snew f l t true s).2).total_allocated
        = s.total_allocated + Snew ∧
      ((memm_realloc p new_ptr Snew f l t true s).2).free_count
        = s.free_count + 1 ∧
      ((memm_realloc p new_ptr Snew f l t true s).2).allocation_count
        = s.allocation_count + 1 ∧
      ∃ tail, ((memm_realloc p new_ptr Snew f l t true s).2).hash_table
          (memm_hash_ptr new_ptr)
        = { ptr := new_ptr, size := Snew, file := f, line := l, timestamp := t }
            :: tail) := by
  obtain ⟨r, rest, hrm, hclean⟩ :=
    memm_remove_first_of_countP p (s.hash_table (memm_hash_ptr p)) hcount
  have hrmem := memm_remove_first_mem p _ r rest hrm
  have hrptr := (memm_remove_first_spec p _ r rest hrm).1
  have hrsize : r.size = Sold :=
    (honly (memm_hash_ptr p) r hrmem hrptr).2
  have hu := memm_unregister_allocation_found p f l s r rest hp hrm
  set s1 : memm :=
    { s with
      hash_table := Function.update s.hash_table (memm_hash_ptr p) rest
      total_freed := s.total_freed + r.size
      free_count := s.free_count + 1 } with hs1
  have hu2 : (memm_unregister_allocation p f l s).2 = s1 := by rw [hu]
  have hnop : ∀ i : Nat, ∀ a ∈ s1.hash_table i, a.ptr ≠ p := by
    intro i a ha
    by_cases hi : i = memm_hash_ptr p
    · subst hi
      rw [hs1] at ha
      simp only [Function.update_same] at ha
      exact hclean a ha
    · rw [hs1] at ha
      simp only [Function.update_noteq hi] at ha
      intro hap
      exact hi (honly i a ha hap).1
  constructor
  · intro _
    have hre : memm_realloc p 0 Snew f l t true s = (0, s1) := by
      rw [memm_realloc_eq p 0 Snew f l t true s hp, hu2]
      simp
    rw [hre]
    refine ⟨rfl, ?_, ?_, hnop⟩
    · show s1.total_freed = s.total_freed + Sold
      rw [hs1]
      simp [hrsize]
    · show s1.free_count = s.free_count + 1
      rw [hs1]
  · intro hnew
    rw [memm_realloc_eq p new_ptr Snew f l t true s hp]
    rw [if_pos hnew, hu2]
    rw [memm_register_allocation_spec new_ptr Snew f l t s1 hnew]
    refine ⟨rfl, ?_, ?_, ?_, ?_, ?_⟩
    · show s1.total_freed = s.total_freed + Sold
      rw [hs1]; simp [hrsize]
    · show s1.total_allocated + Snew = s.total_allocated + Snew
      rw [hs1]
    · show s1.free_count = s.free_count + 1
      rw [hs1]
    · show s1.allocation_count + 1 = s.allocation_count + 1
      rw [hs1]
    · exact ⟨s1.hash_table (memm_hash_ptr new_ptr), by simp [Function.update_same]⟩

/-- Concrete one-record state used by the C3 witness: address 5 tracked
with size 100. -/
def memm_c3_state : memm :=
  { hash_table := fun i =>
      if i = 5 then [{ ptr := 5, size := 100, file := "g", line := 2, timestamp := 9 }]
      else []
    total_allocated := 100
    total_freed := 0
    peak_memory := 100
    allocation_count := 1
    free_count := 0 }

/-- C3 witness: resize address 5 down from 100 to 10 bytes, once with the
adapter failing and once with it succeeding at address 12. -/
theorem memm_realloc_spec_witness :
    ((memm_realloc 5 0 10 "f" 1 3 true memm_c3_state).1 = 0 ∧
      ((memm_realloc 5 0 10 "f" 1 3 true memm_c3_state).2).total_freed
        = memm_c3_state.total_freed + 100 ∧
      ((memm_realloc 5 0 10 "f" 1 3 true memm_c3_state).2).free_count
        = memm_c3_state.free_count + 1 ∧
      ∀ i : Nat, ∀ a ∈ ((memm_realloc 5 0 10 "f" 1 3 true memm_c3_state).2).hash_table i,
        a.ptr ≠ 5) ∧
    ((memm_realloc 5 12 10 "f" 1 3 true memm_c3_state).1 = 12 ∧
      ((memm_realloc 5 12 10 "f" 1 3 true memm_c3_state).2).total_freed
        = memm_c3_state.total_freed + 100 ∧
      ((memm_realloc 5 12 10 "f" 1 3 true memm_c3_state).2).total_allocated
        = memm_c3_state.total_allocated + 10 ∧
      ((memm_realloc 5 12 10 "f" 1 3 true memm_c3_state).2).free_count
        = memm_c3_state.free_count + 1 ∧
      ((memm_realloc 5 12 10 "f" 1 3 true memm_c3_state).2).allocation_count
        = memm_c3_state.allocation_count + 1 ∧
      ∃ tail, ((memm_realloc 5 12 10 "f" 1 3 true memm_c3_state).2).hash_table
          (memm_hash_ptr 12)
        = { ptr := 12, size := 10, file := "f", line := 1, timestamp := 3 } :: tail) := by
  have honly : ∀ i : Nat, ∀ a ∈ memm_c3_state.hash_table i, a.ptr = 5 →
      i = memm_hash_ptr 5 ∧ a.size = 100 := by
    intro i a ha hap
    by_cases hi : i = 5
    · subst hi
      simp [memm_c3_state] at ha
      subst ha
      exact ⟨by decide, rfl⟩
    · simp [memm_c3_state, hi] at ha
  exact ⟨(memm_realloc_spec memm_c3_state 5 0 100 10 "f" 1 3 (by decide)
            (by decide) honly).1 rfl,
         (memm_realloc_spec memm_c3_state 5 12 100 10 "f" 1 3 (by decide)
            (by decide) honly).2 (by decide)⟩

/-! ### Report formatting

Embedding of `memm_get_stats_string`, `memm_get_allocations_string` and
`memm_get_leaks_string`.  A caller buffer of capacity `buffer_size` is a
`List Char` of that length; `is_null` models a `NULL` buffer pointer.
`snprintf` is modelled by its C semantics for these format directives: it
renders the full text, writes at most `capacity - 1` characters plus a
terminating null, and returns the untruncated length (the encoding-error
negative return of `snprintf` cannot occur for these directives and is
not modelled). -/

/-- The null terminator byte. -/
def nulChar : Char := Char.ofNat 0

/-- printf `%p` rendering of an address.  Implementation-defined in C;
modelled as lowercase hex with a `0x` prefix (glibc style). -/
def ptrRepr (p : Nat) : String :=
  "0x" ++ String.mk (Nat.toDigits 16 p)

/-- printf `%6zu`: decimal, right-aligned to width 6 with spaces. -/
def zu6 (n : Nat) : String :=
  String.mk (List.replicate (6 - (Nat.repr n).length) ' ') ++ Nat.repr n

/-- Model of `snprintf(buf + pos, buf.length - pos, ...)` rendering
`content`: writes `min content.length (buf.length - pos - 1)` characters
at offset `pos` followed by a null; the rest of the buffer is untouched. -/
def memm_snprintf (buf : List Char) (pos : Nat) (content : List Char) : List Char :=
  let w := min content.length (buf.length - pos - 1)
  buf.take pos ++ content.take w ++ [nulChar] ++ buf.drop (pos + w + 1)

/-- Cursor state of the record-emitting loops: buffer, cursor offset
(`buffer_size - remaining`), `total_written`, and the running
`total_count` / `total_bytes` (`leak_count` / `leak_bytes`). -/
structure memm_fmt_state where
  buf : List Char
  pos : Nat
  total_written : Nat
  count : Nat
  bytes : Nat

/-- One line of the allocations report:
`"  %p: %6zu bytes @ %s:%d\n"`. -/
def memm_alloc_line (a : memm_allocation) : String :=
  "  " ++ ptrRepr a.ptr ++ ": " ++ zu6 a.size ++ " bytes @ " ++ a.file ++ ":"
    ++ toString a.line ++ "\n"

/-- One line of the leak report:
`"  LEAK: %6zu bytes at %p (%s:%d)\n"`. -/
def memm_leak_line (a : memm_allocation) : String :=
  "  LEAK: " ++ zu6 a.size ++ " bytes at " ++ ptrRepr a.ptr ++ " (" ++ a.file
    ++ ":" ++ toString a.line ++ ")\n"

/-- Loop body for one record: `snprintf` of its line, `written` capped at
`remaining - 1` on truncation, then cursor, `total_written`, count and
byte total advance. -/
def memm_emit_record (lineOf : memm_allocation → String) (a : memm_allocation)
    (st : memm_fmt_state) : memm_fmt_state :=
  let remaining := st.buf.length - st.pos
  let content := (lineOf a).toList
  let w := min content.length (remaining - 1)
  { buf := memm_snprintf st.buf st.pos content
    pos := st.pos + w
    total_written := st.total_written + w
    count := st.count + 1
    bytes := st.bytes + a.size }

/-- Inner `while (current && remaining > 1)` loop over one bucket chain. -/
def memm_emit_chain (lineOf : memm_allocation → String) :
    List memm_allocation → memm_fmt_state → memm_fmt_state
  | [], st => st
  | a :: rest, st =>
    if st.buf.length - st.pos > 1 then
      memm_emit_chain lineOf rest (memm_emit_record lineOf a st)
    else st

/-- Outer `for (i = 0; i < MEMM_HASH_TABLE_SIZE && remaining > 1; i++)`
loop over the buckets. -/
def memm_emit_buckets (lineOf : memm_allocation → String) (s : memm)
    (st : memm_fmt_state) : memm_fmt_state :=
  (List.range MEMM_HASH_TABLE_SIZE).foldl
    (fun st i =>
      if st.buf.length - st.pos > 1 then memm_emit_chain lineOf (s.hash_table i) st
      else st)
    st

/-- Trailing summary `snprintf`: the buffer is written, `total_written`
grows by the (possibly capped) count when the rendered text is nonempty,
and the cursor is not advanced (the C code returns right after). -/
def memm_emit_summary (content : List Char) (st : memm_fmt_state) : memm_fmt_state :=
  let remaining := st.buf.length - st.pos
  let w := if content.length > 0 then min content.length (remaining - 1) else 0
  { st with
    buf := memm_snprintf st.buf st.pos content
    total_written := st.total_written + w }

/-- The `total_count == 0` / summary branch after the record loop
(`remaining`, i.e. `st1.buf.length - st1.pos`, is the C `remaining`
variable as it stands after the loop). -/
def memm_report_summary (empty_msg : String) (summary_of : Nat → Nat → String)
    (st1 : memm_fmt_state) : memm_fmt_state :=
  if st1.count = 0 ∧ st1.buf.length - st1.pos > 1 then
    memm_emit_summary empty_msg.toList st1
  else if st1.buf.length - st1.pos > 1 then
    memm_emit_summary (summary_of st1.count st1.bytes).toList st1
  else st1

/-- Everything after the record loop: summary line, the (dead) final
null-termination fix-up, and the return of `total_written`; `bsz` is
`buffer_size`. -/
def memm_report_finish (empty_msg : String) (summary_of : Nat → Nat → String)
    (bsz : Nat) (st1 : memm_fmt_state) : Int × List Char :=
  let st2 := memm_report_summary empty_msg summary_of st1
  let st3 :=
    if st1.buf.length - st1.pos = 0 ∧ bsz > 0 then
      { st2 with buf := st2.buf.take (bsz - 1) ++ [nulChar] }
    else st2
  ((st2.total_written : Int), st3.buf)

/-- Common body of `memm_get_allocations_string` and
`memm_get_leaks_string`, which are textually identical in the C source up
to the header, record-line, empty-registry and summary format strings. -/
def memm_report_core (header : String) (lineOf : memm_allocation → String)
    (empty_msg : String) (summary_of : Nat → Nat → String)
    (is_null : Bool) (buf : List Char) (s : memm) : Int × List Char :=
  if is_null ∨ buf.length = 0 then (-1, buf)
  else
    let h := header.toList
    if h.length ≥ buf.length then
      ((buf.length : Int) - 1, memm_snprintf buf 0 h)
    else
      memm_report_finish empty_msg summary_of buf.length
        (memm_emit_buckets lineOf s
          { buf := memm_snprintf buf 0 h, pos := h.length,
            total_written := h.length, count := 0, bytes := 0 })

/-- The full text `memm_get_stats_string` formats (8 lines, fixed order). -/
def memm_stats_text (s : memm) : String :=
  "=== MEMORY STATISTICS ===\n" ++
  "Total allocated:      " ++ Nat.repr s.total_allocated ++ " bytes\n" ++
  "Total freed:          " ++ Nat.repr s.total_freed ++ " bytes\n" ++
  "Current usage:        " ++ Nat.repr (memm_get_current_usage s) ++ " bytes\n" ++
  "Peak memory usage:    " ++ Nat.repr (memm_get_peak_usage s) ++ " bytes\n" ++
  "Allocation calls:     " ++ Nat.repr (memm_get_allocation_count s) ++ "\n" ++
  "Free calls:           " ++ Nat.repr (memm_get_free_count s) ++ "\n" ++
  "Potential leaks:      "
    ++ Nat.repr (memm_get_allocation_count s - memm_get_free_count s) ++ " objects\n" ++
  "Hash table size:      " ++ Nat.repr MEMM_HASH_TABLE_SIZE ++ " buckets\n"

/-- `memm_get_stats_string`: one `snprintf` of the whole statistics text. -/
def memm_get_stats_string (is_null : Bool) (buf : List Char) (s : memm) :
    Int × List Char :=
  if is_null ∨ buf.length = 0 then (-1, buf)
  else
    let content := (memm_stats_text s).toList
    let buf1 := memm_snprintf buf 0 content
    if content.length ≥ buf.length then ((buf.length : Int) - 1, buf1)
    else ((content.length : Int), buf1)

/-- `memm_get_allocations_string`. -/
def memm_get_allocations_string (is_null : Bool) (buf : List Char) (s : memm) :
    Int × List Char :=
  memm_report_core "=== CURRENT ALLOCATIONS ===\n" memm_alloc_line
    "  No active allocations\n"
    (fun c b => "  Total: " ++ Nat.repr c ++ " allocations, " ++ Nat.repr b ++ " bytes\n")
    is_null buf s

/-- `memm_get_leaks_string`. -/
def memm_get_leaks_string (is_null : Bool) (buf : List Char) (s : memm) :
    Int × List Char :=
  memm_report_core "=== MEMORY LEAK REPORT ===\n" memm_leak_line
    "  No memory leaks detected!\n"
    (fun c b => "  TOTAL LEAKS: " ++ Nat.repr c ++ " allocations, " ++ Nat.repr b ++ " bytes\n")
    is_null buf s

/-- The record lines the loop would produce with unbounded capacity. -/
def memm_report_lines (lineOf : memm_allocation → String) (s : memm) : String :=
  String.join ((memm_iterate s).map lineOf)

/-- The whole report with unbounded capacity: header, one line per live
record in iteration order, then the empty-registry line (no records) or
the totals line. -/
def memm_full_report (header : String) (lineOf : memm_allocation → String)
    (empty_msg : String) (summary_of : Nat → Nat → String) (s : memm) : String :=
  header ++ memm_report_lines lineOf s ++
    (if (memm_iterate s).length = 0 then empty_msg
     else summary_of (memm_iterate s).length
            ((memm_iterate s).map memm_allocation.size).sum)

/-- The untruncated allocations report. -/
def memm_alloc_report (s : memm) : String :=
  memm_full_report "=== CURRENT ALLOCATIONS ===\n" memm_alloc_line
    "  No active allocations\n"
    (fun c b => "  Total: " ++ Nat.repr c ++ " allocations, " ++ Nat.repr b ++ " bytes\n") s

/-- The untruncated leak report. -/
def memm_leak_report (s : memm) : String :=
  memm_full_report "=== MEMORY LEAK REPORT ===\n" memm_leak_line
    "  No memory leaks detected!\n"
    (fun c b => "  TOTAL LEAKS: " ++ Nat.repr c ++ " allocations, " ++ Nat.repr b ++ " bytes\n") s

/-! ### Formatting lemmas -/

theorem nul_mem_memm_snprintf (buf : List Char) (pos : Nat) (content : List Char) :
    nulChar ∈ memm_snprintf buf pos content := by
  simp [memm_snprintf]

theorem memm_snprintf_length (buf : List Char) (pos : Nat) (content : List Char)
    (h : pos < buf.length) :
    (memm_snprintf buf pos content).length = buf.length := by
  simp [memm_snprintf]
  omega

theorem memm_join_length (l : List String) :
    (String.join l).length = (l.map String.length).sum := by
  have key : ∀ (l : List String) (acc : String),
      (l.foldl (fun r x => r ++ x) acc).length
        = acc.length + (l.map String.length).sum := by
    intro l
    induction l with
    | nil => intro acc; simp
    | cons x xs ih =>
      intro acc
      rw [List.foldl_cons, ih, String.length_append, List.map_cons, List.sum_cons]
      omega
  simpa [String.join] using key l ""

theorem memm_emit_chain_nul (lineOf : memm_allocation → String)
    (cs : List memm_allocation) (st : memm_fmt_state)
    (h : nulChar ∈ st.buf) : nulChar ∈ (memm_emit_chain lineOf cs st).buf := by
  induction cs generalizing st with
  | nil => exact h
  | cons a rest ih =>
    rw [memm_emit_chain]
    split
    · exact ih _ (nul_mem_memm_snprintf ..)
    · exact h

/-- The bucket loop over an explicit index list (`memm_emit_buckets` is
this at `List.range MEMM_HASH_TABLE_SIZE`). -/
def memm_emit_bucket_list (lineOf : memm_allocation → String) (s : memm)
    (idx : List Nat) (st : memm_fmt_state) : memm_fmt_state :=
  idx.foldl
    (fun st i =>
      if st.buf.length - st.pos > 1 then memm_emit_chain lineOf (s.hash_table i) st
      else st)
    st

theorem memm_emit_buckets_eq (lineOf : memm_allocation → String) (s : memm)
    (st : memm_fmt_state) :
    memm_emit_buckets lineOf s st
      = memm_emit_bucket_list lineOf s (List.range MEMM_HASH_TABLE_SIZE) st := rfl

theorem memm_emit_bucket_list_nul (lineOf : memm_allocation → String) (s : memm)
    (idx : List Nat) :
    ∀ (st : memm_fmt_state), nulChar ∈ st.buf →
      nulChar ∈ (memm_emit_bucket_list lineOf s idx st).buf := by
  induction idx with
  | nil => intro st h; exact h
  | cons i rest ih =>
    intro st h
    show nulChar ∈ (memm_emit_bucket_list lineOf s rest
      (if st.buf.length - st.pos > 1 then memm_emit_chain lineOf (s.hash_table i) st
       else st)).buf
    apply ih
    split
    · exact memm_emit_chain_nul lineOf _ st h
    · exact h

/-- Total text length of the lines of one chain. -/
def memm_chain_text_len (lineOf : memm_allocation → String)
    (cs : List memm_allocation) : Nat :=
  (cs.map (fun a => (lineOf a).length)).sum

theorem memm_emit_chain_spec (lineOf : memm_allocation → String)
    (hline : ∀ a, 1 ≤ (lineOf a).length) (cs : List memm_allocation) :
    ∀ (st : memm_fmt_state) (L : Nat), st.buf.length = L → st.pos + 1 ≤ L →
      st.total_written = st.pos →
      (memm_emit_chain lineOf cs st).buf.length = L ∧
      (memm_emit_chain lineOf cs st).pos
        = min (st.pos + memm_chain_text_len lineOf cs) (L - 1) ∧
      (memm_emit_chain lineOf cs st).total_written
        = (memm_emit_chain lineOf cs st).pos ∧
      (st.pos + memm_chain_text_len lineOf cs + 2 ≤ L →
        (memm_emit_chain lineOf cs st).count = st.count + cs.length ∧
        (memm_emit_chain lineOf cs st).bytes
          = st.bytes + (cs.map memm_allocation.size).sum) := by
  induction cs with
  | nil =>
    intro st L hbuf hpos htot
    refine ⟨hbuf, ?_, ?_, ?_⟩
    · show st.pos = min (st.pos + memm_chain_text_len lineOf []) (L - 1)
      simp only [memm_chain_text_len, List.map_nil, List.sum_nil]
      omega
    · exact htot
    · intro _
      exact ⟨by simp [memm_emit_chain], by simp [memm_emit_chain]⟩
  | cons a rest ih =>
    intro st L hbuf hpos htot
    by_cases hg : st.buf.length - st.pos > 1
    · have hcons : memm_emit_chain lineOf (a :: rest) st
          = memm_emit_chain lineOf rest (memm_emit_record lineOf a st) := by
        rw [memm_emit_chain, if_pos hg]
      have hts : ((lineOf a).toList).length = (lineOf a).length := rfl
      have hrbuf : (memm_emit_record lineOf a st).buf.length = L := by
        show (memm_snprintf st.buf st.pos ((lineOf a).toList)).length = L
        rw [memm_snprintf_length st.buf st.pos _ (by omega)]
        exact hbuf
      have hrpos : (memm_emit_record lineOf a st).pos
          = st.pos + min (lineOf a).length (st.buf.length - st.pos - 1) := by
        show st.pos + min ((lineOf a).toList).length (st.buf.length - st.pos - 1)
          = st.pos + min (lineOf a).length (st.buf.length - st.pos - 1)
        rw [hts]
      have hrpos1 : (memm_emit_record lineOf a st).pos + 1 ≤ L := by
        rw [hrpos]; omega
      have hrtot : (memm_emit_record lineOf a st).total_written
          = (memm_emit_record lineOf a st).pos := by
        show st.total_written + min ((lineOf a).toList).length (st.buf.length - st.pos - 1)
          = st.pos + min ((lineOf a).toList).length (st.buf.length - st.pos - 1)
        rw [htot]
      have hrcnt : (memm_emit_record lineOf a st).count = st.count + 1 := rfl
      have hrbyt : (memm_emit_record lineOf a st).bytes = st.bytes + a.size := rfl
      obtain ⟨ibuf, ipos, itot, icnt⟩ :=
        ih (memm_emit_record lineOf a st) L hrbuf hrpos1 hrtot
      rw [hcons]
      have hctl : memm_chain_text_len lineOf (a :: rest)
          = (lineOf a).length + memm_chain_text_len lineOf rest := by
        simp [memm_chain_text_len]
      refine ⟨ibuf, ?_, itot, ?_⟩
      · rw [ipos, hrpos, hctl, hbuf]
        omega
      · intro hcond
        rw [hctl] at hcond
        have hcond1 : (memm_emit_record lineOf a st).pos
            + memm_chain_text_len lineOf rest + 2 ≤ L := by
          rw [hrpos]; omega
        obtain ⟨c1, b1⟩ := icnt hcond1
        rw [c1, b1, hrcnt, hrbyt]
        simp only [List.length_cons, List.map_cons, List.sum_cons]
        constructor <;> omega
    · have hskip : memm_emit_chain lineOf (a :: rest) st = st := by
        rw [memm_emit_chain, if_neg hg]
      have hla := hline a
      have hctl : (lineOf a).length ≤ memm_chain_text_len lineOf (a :: rest) := by
        simp [memm_chain_text_len]
      rw [hskip]
      refine ⟨hbuf, ?_, htot, ?_⟩
      · omega
      · intro hcond
        exfalso
        omega

theorem memm_emit_bucket_list_spec (lineOf : memm_allocation → String)
    (hline : ∀ a, 1 ≤ (lineOf a).length) (s : memm) (idx : List Nat) :
    ∀ (st : memm_fmt_state) (L : Nat), st.buf.length = L → st.pos + 1 ≤ L →
      st.total_written = st.pos →
      (memm_emit_bucket_list lineOf s idx st).buf.length = L ∧
      (memm_emit_bucket_list lineOf s idx st).pos
        = min (st.pos
            + (idx.map (fun i => memm_chain_text_len lineOf (s.hash_table i))).sum)
            (L - 1) ∧
      (memm_emit_bucket_list lineOf s idx st).total_written
        = (memm_emit_bucket_list lineOf s idx st).pos ∧
      (st.pos + (idx.map (fun i => memm_chain_text_len lineOf (s.hash_table i))).sum
          + 2 ≤ L →
        (memm_emit_bucket_list lineOf s idx st).count
          = st.count + (idx.map (fun i => (s.hash_table i).length)).sum ∧
        (memm_emit_bucket_list lineOf s idx st).bytes
          = st.bytes
            + (idx.map (fun i => ((s.hash_table i).map memm_allocation.size).sum)).sum) := by
  induction idx with
  | nil =>
    intro st L hbuf hpos htot
    refine ⟨hbuf, ?_, htot, ?_⟩
    · show st.pos = min (st.pos + (([] : List Nat).map _).sum) (L - 1)
      simp only [List.map_nil, List.sum_nil]
      omega
    · intro _
      exact ⟨by simp [memm_emit_bucket_list], by simp [memm_emit_bucket_list]⟩
  | cons i rest ih =>
    intro st L hbuf hpos htot
    by_cases hg : st.buf.length - st.pos > 1
    · have hcons : memm_emit_bucket_list lineOf s (i :: rest) st
          = memm_emit_bucket_list lineOf s rest
              (memm_emit_chain lineOf (s.hash_table i) st) := by
        show memm_emit_bucket_list lineOf s rest
            (if st.buf.length - st.pos > 1
              then memm_emit_chain lineOf (s.hash_table i) st else st)
          = _
        rw [if_pos hg]
      obtain ⟨cbuf, cpos, ctot, ccnt⟩ :=
        memm_emit_chain_spec lineOf hline (s.hash_table i) st L hbuf hpos htot
      have hpos1 : (memm_emit_chain lineOf (s.hash_table i) st).pos + 1 ≤ L := by
        rw [cpos]; omega
      obtain ⟨rbuf, rpos, rtot, rcnt⟩ :=
        ih (memm_emit_chain lineOf (s.hash_table i) st) L cbuf hpos1 ctot
      rw [hcons]
      refine ⟨rbuf, ?_, rtot, ?_⟩
      · rw [rpos, cpos]
        simp only [List.map_cons, List.sum_cons]
        omega
      · intro hcond
        simp only [List.map_cons, List.sum_cons] at hcond ⊢
        have hc1 : st.pos + memm_chain_text_len lineOf (s.hash_table i) + 2 ≤ L := by
          omega
        obtain ⟨c1, b1⟩ := ccnt hc1
        have hc2 : (memm_emit_chain lineOf (s.hash_table i) st).pos
            + (rest.map (fun i => memm_chain_text_len lineOf (s.hash_table i))).sum
            + 2 ≤ L := by
          rw [cpos]; omega
        obtain ⟨c2, b2⟩ := rcnt hc2
        rw [c2, c1, b2, b1]
        constructor <;> omega
    · have hskip : memm_emit_bucket_list lineOf s (i :: rest) st
          = memm_emit_bucket_list lineOf s rest st := by
        show memm_emit_bucket_list lineOf s rest
            (if st.buf.length - st.pos > 1
              then memm_emit_chain lineOf (s.hash_table i) st else st)
          = _
        rw [if_neg hg]
      obtain ⟨rbuf, rpos, rtot, rcnt⟩ := ih st L hbuf hpos htot
      rw [hskip]
      refine ⟨rbuf, ?_, rtot, ?_⟩
      · rw [rpos]
        simp only [List.map_cons, List.sum_cons]
        omega
      · intro hcond
        exfalso
        simp only [List.map_cons, List.sum_cons] at hcond
        omega

theorem memm_report_lines_length (lineOf : memm_allocation → String) (s : memm) :
    (memm_report_lines lineOf s).length
      = ((List.range MEMM_HASH_TABLE_SIZE).map
          (fun i => memm_chain_text_len lineOf (s.hash_table i))).sum := by
  unfold memm_report_lines
  rw [memm_join_length, List.map_map]
  unfold memm_iterate
  rw [List.map_flatten, List.sum_flatten, List.map_map, List.map_map]
  rfl

theorem memm_iterate_length (s : memm) :
    (memm_iterate s).length
      = ((List.range MEMM_HASH_TABLE_SIZE).map
          (fun i => (s.hash_table i).length)).sum := by
  unfold memm_iterate
  rw [List.length_flatten, List.map_map]
  rfl

theorem memm_iterate_bytes (s : memm) :
    ((memm_iterate s).map memm_allocation.size).sum
      = ((List.range MEMM_HASH_TABLE_SIZE).map
          (fun i => ((s.hash_table i).map memm_allocation.size).sum)).sum := by
  unfold memm_iterate
  rw [List.map_flatten, List.sum_flatten, List.map_map, List.map_map]
  rfl

theorem memm_report_summary_total (e : String) (g : Nat → Nat → String)
    (hemp : 1 ≤ e.length) (hsum : ∀ c b, 1 ≤ (g c b).length)
    (st1 : memm_fmt_state) :
    (memm_report_summary e g st1).total_written
      = if st1.count = 0 ∧ st1.buf.length - st1.pos > 1
          then st1.total_written + min e.length (st1.buf.length - st1.pos - 1)
        else if st1.buf.length - st1.pos > 1
          then st1.total_written
            + min (g st1.count st1.bytes).length (st1.buf.length - st1.pos - 1)
        else st1.total_written := by
  have hts : ∀ x : String, x.toList.length = x.length := fun _ => rfl
  unfold memm_report_summary
  by_cases hc : st1.count = 0 ∧ st1.buf.length - st1.pos > 1
  · rw [if_pos hc, if_pos hc]
    show st1.total_written + (if (e.toList).length > 0
        then min (e.toList).length (st1.buf.length - st1.pos - 1) else 0) = _
    rw [hts, if_pos (by omega)]
  · rw [if_neg hc, if_neg hc]
    by_cases hr : st1.buf.length - st1.pos > 1
    · rw [if_pos hr, if_pos hr]
      show st1.total_written + (if ((g st1.count st1.bytes).toList).length > 0
          then min ((g st1.count st1.bytes).toList).length
            (st1.buf.length - st1.pos - 1)
          else 0) = _
      rw [hts, if_pos (by have := hsum st1.count st1.bytes; omega)]
    · rw [if_neg hr, if_neg hr]

theorem memm_report_summary_nul (e : String) (g : Nat → Nat → String)
    (st1 : memm_fmt_state) (h : nulChar ∈ st1.buf) :
    nulChar ∈ (memm_report_summary e g st1).buf := by
  unfold memm_report_summary
  split
  · exact nul_mem_memm_snprintf ..
  · split
    · exact nul_mem_memm_snprintf ..
    · exact h

theorem memm_report_finish_fst (e : String) (g : Nat → Nat → String)
    (bsz : Nat) (st1 : memm_fmt_state) :
    (memm_report_finish e g bsz st1).1
      = ((memm_report_summary e g st1).total_written : Int) := rfl

theorem memm_report_finish_nul (e : String) (g : Nat → Nat → String)
    (bsz : Nat) (st1 : memm_fmt_state) (h : nulChar ∈ st1.buf) :
    nulChar ∈ (memm_report_finish e g bsz st1).2 := by
  have h2 : nulChar ∈ (memm_report_summary e g st1).buf :=
    memm_report_summary_nul e g st1 h
  show nulChar ∈ (if st1.buf.length - st1.pos = 0 ∧ bsz > 0
      then { memm_report_summary e g st1 with
             buf := (memm_report_summary e g st1).buf.take (bsz - 1) ++ [nulChar] }
      else memm_report_summary e g st1).buf
  split
  · simp
  · exact h2

theorem memm_report_core_ret (header : String) (lineOf : memm_allocation → String)
    (empty_msg : String) (summary_of : Nat → Nat → String)
    (hline : ∀ a, 1 ≤ (lineOf a).length)
    (hempty : 1 ≤ empty_msg.length)
    (hsummary : ∀ c b, 1 ≤ (summary_of c b).length)
    (buf : List Char) (s : memm) (hlen : 1 ≤ buf.length) :
    (memm_report_core header lineOf empty_msg summary_of false buf s).1
      = ((min (memm_full_report header lineOf empty_msg summary_of s).length
            (buf.length - 1) : Nat) : Int) := by
  have hfull : (memm_full_report header lineOf empty_msg summary_of s).length
      = header.length + (memm_report_lines lineOf s).length
        + (if (memm_iterate s).length = 0 then empty_msg.length
           else (summary_of (memm_iterate s).length
             ((memm_iterate s).map memm_allocation.size).sum).length) := by
    unfold memm_full_report
    by_cases hit : (memm_iterate s).length = 0
    · rw [if_pos hit, if_pos hit, String.length_append, String.length_append]
    · rw [if_neg hit, if_neg hit, String.length_append, String.length_append]
  have hts : ∀ x : String, x.toList.length = x.length := fun _ => rfl
  unfold memm_report_core
  rw [if_neg (show ¬(false = true ∨ buf.length = 0) from by
    rintro (h | h)
    · exact absurd h (by decide)
    · omega)]
  by_cases hh : (header.toList).length ≥ buf.length
  · rw [if_pos hh]
    rw [hts] at hh
    have hge : header.length
        ≤ (memm_full_report header lineOf empty_msg summary_of s).length := by
      rw [hfull]; omega
    show (buf.length : Int) - 1 = _
    omega
  · rw [if_neg hh]
    rw [hts] at hh
    set st0 : memm_fmt_state :=
      { buf := memm_snprintf buf 0 header.toList, pos := (header.toList).length,
        total_written := (header.toList).length, count := 0, bytes := 0 } with hst0
    set stB := memm_emit_buckets lineOf s st0 with hstB
    have hbuf0 : st0.buf.length = buf.length := by
      rw [hst0]
      exact memm_snprintf_length buf 0 _ (by omega)
    have hpos0 : st0.pos + 1 ≤ buf.length := by
      rw [hst0]; show (header.toList).length + 1 ≤ buf.length
      rw [hts]; omega
    have htot0 : st0.total_written = st0.pos := rfl
    obtain ⟨l1, p1, t1, cnt1⟩ :=
      memm_emit_bucket_list_spec lineOf hline s
        (List.range MEMM_HASH_TABLE_SIZE) st0 buf.length hbuf0 hpos0 htot0
    have hconv : memm_emit_bucket_list lineOf s (List.range MEMM_HASH_TABLE_SIZE) st0
        = stB := by
      rw [hstB]
      rfl
    rw [hconv] at l1 p1 t1 cnt1
    rw [← memm_report_lines_length] at p1 cnt1
    have hpos0v : st0.pos = header.length := hts header
    have hcnt0 : st0.count = 0 := rfl
    have hbyt0 : st0.bytes = 0 := rfl
    rw [memm_report_finish_fst,
      memm_report_summary_total empty_msg summary_of hempty hsummary]
    by_cases hR : stB.buf.length - stB.pos > 1
    · have hfit : st0.pos + (memm_report_lines lineOf s).length + 2 ≤ buf.length := by
        rw [l1] at hR
        omega
      obtain ⟨hc, hb⟩ := cnt1 hfit
      rw [← memm_iterate_length] at hc
      rw [← memm_iterate_bytes] at hb
      have hp1v : stB.pos = st0.pos + (memm_report_lines lineOf s).length := by
        rw [p1]; omega
      by_cases hz : stB.count = 0
      · rw [if_pos ⟨hz, hR⟩]
        have hiter0 : (memm_iterate s).length = 0 := by omega
        rw [t1, hp1v, l1, hfull, if_pos hiter0, hpos0v]
        omega
      · rw [if_neg (fun h => hz h.1), if_pos hR]
        have hiterne : ¬(memm_iterate s).length = 0 := by omega
        have hcs : stB.count = (memm_iterate s).length := by omega
        have hbs : stB.bytes = ((memm_iterate s).map memm_allocation.size).sum := by
          omega
        rw [hcs, hbs, t1, hp1v, l1, hfull, if_neg hiterne, hpos0v]
        omega
    · rw [if_neg (fun h => hR h.2), if_neg hR]
      have hp1sat : stB.pos = buf.length - 1 := by
        rw [l1] at hR
        omega
      rw [t1, hp1sat, hfull]
      omega

theorem memm_report_core_nul (header : String) (lineOf : memm_allocation → String)
    (empty_msg : String) (summary_of : Nat → Nat → String)
    (buf : List Char) (s : memm) (hlen : 1 ≤ buf.length) :
    nulChar ∈ (memm_report_core header lineOf empty_msg summary_of false buf s).2 := by
  unfold memm_report_core
  rw [if_neg (show ¬(false = true ∨ buf.length = 0) from by
    rintro (h | h)
    · exact absurd h (by decide)
    · omega)]
  by_cases hh : (header.toList).length ≥ buf.length
  · rw [if_pos hh]
    exact nul_mem_memm_snprintf ..
  · rw [if_neg hh]
    refine memm_report_finish_nul empty_msg summary_of buf.length _ ?_
    exact memm_emit_bucket_list_nul lineOf s (List.range MEMM_HASH_TABLE_SIZE) _
      (nul_mem_memm_snprintf ..)

theorem memm_alloc_line_len (a : memm_allocation) :
    1 ≤ (memm_alloc_line a).length := by
  have h2 : ("  " : String).length = 2 := rfl
  unfold memm_alloc_line
  simp only [String.length_append]
  omega

theorem memm_leak_line_len (a : memm_allocation) :
    1 ≤ (memm_leak_line a).length := by
  have h8 : ("  LEAK: " : String).length = 8 := rfl
  unfold memm_leak_line
  simp only [String.length_append]
  omega

theorem memm_get_stats_string_ret (buf : List Char) (s : memm)
    (hlen : 1 ≤ buf.length) :
    (memm_get_stats_string false buf s).1
      = ((min (memm_stats_text s).length (buf.length - 1) : Nat) : Int) := by
  have hts : ∀ x : String, x.toList.length = x.length := fun _ => rfl
  unfold memm_get_stats_string
  rw [if_neg (show ¬(false = true ∨ buf.length = 0) from by
    rintro (h | h)
    · exact absurd h (by decide)
    · omega)]
  show (if ((memm_stats_text s).toList).length ≥ buf.length
      then ((buf.length : Int) - 1,
        memm_snprintf buf 0 (memm_stats_text s).toList)
      else ((((memm_stats_text s).toList).length : Int),
        memm_snprintf buf 0 (memm_stats_text s).toList)).1 = _
  by_cases hc : ((memm_stats_text s).toList).length ≥ buf.length
  · rw [if_pos hc]
    rw [hts] at hc
    show (buf.length : Int) - 1 = _
    omega
  · rw [if_neg hc]
    rw [hts] at hc
    show ((((memm_stats_text s).toList).length : Nat) : Int) = _
    rw [hts]
    omega

theorem memm_get_stats_string_nul (buf : List Char) (s : memm)
    (hlen : 1 ≤ buf.length) :
    nulChar ∈ (memm_get_stats_string false buf s).2 := by
  unfold memm_get_stats_string
  rw [if_neg (show ¬(false = true ∨ buf.length = 0) from by
    rintro (h | h)
    · exact absurd h (by decide)
    · omega)]
  show nulChar ∈ (if ((memm_stats_text s).toList).length ≥ buf.length
      then ((buf.length : Int) - 1,
        memm_snprintf buf 0 (memm_stats_text s).toList)
      else ((((memm_stats_text s).toList).length : Int),
        memm_snprintf buf 0 (memm_stats_text s).toList)).2
  split
  · exact nul_mem_memm_snprintf ..
  · exact nul_mem_memm_snprintf ..

theorem memm_get_allocations_string_ret (buf : List Char) (s : memm)
    (hlen : 1 ≤ buf.length) :
    (memm_get_allocations_string false buf s).1
      = ((min (memm_alloc_report s).length (buf.length - 1) : Nat) : Int) :=
  memm_report_core_ret "=== CURRENT ALLOCATIONS ===\n" memm_alloc_line
    "  No active allocations\n"
    (fun c b => "  Total: " ++ Nat.repr c ++ " allocations, " ++ Nat.repr b ++ " bytes\n")
    memm_alloc_line_len (by decide)
    (fun c b => by
      have h9 : ("  Total: " : String).length = 9 := rfl
      simp only [String.length_append]
      omega)
    buf s hlen

theorem memm_get_leaks_string_ret (buf : List Char) (s : memm)
    (hlen : 1 ≤ buf.length) :
    (memm_get_leaks_string false buf s).1
      = ((min (memm_leak_report s).length (buf.length - 1) : Nat) : Int) :=
  memm_report_core_ret "=== MEMORY LEAK REPORT ===\n" memm_leak_line
    "  No memory leaks detected!\n"
    (fun c b => "  TOTAL LEAKS: " ++ Nat.repr c ++ " allocations, " ++ Nat.repr b ++ " bytes\n")
    memm_leak_line_len (by decide)
    (fun c b => by
      have h14 : ("  TOTAL LEAKS: " : String).length = 15 := rfl
      simp only [String.length_append]
      omega)
    buf s hlen

theorem memm_get_allocations_string_nul (buf : List Char) (s : memm)
    (hlen : 1 ≤ buf.length) :
    nulChar ∈ (memm_get_allocations_string false buf s).2 :=
  memm_report_core_nul "=== CURRENT ALLOCATIONS ===\n" memm_alloc_line
    "  No active allocations\n"
    (fun c b => "  Total: " ++ Nat.repr c ++ " allocations, " ++ Nat.repr b ++ " bytes\n")
    buf s hlen

theorem memm_get_leaks_string_nul (buf : List Char) (s : memm)
    (hlen : 1 ≤ buf.length) :
    nulChar ∈ (memm_get_leaks_string false buf s).2 :=
  memm_report_core_nul "=== MEMORY LEAK REPORT ===\n" memm_leak_line
    "  No memory leaks detected!\n"
    (fun c b => "  TOTAL LEAKS: " ++ Nat.repr c ++ " allocations, " ++ Nat.repr b ++ " bytes\n")
    buf s hlen

/-! ### Claim theorems: report functions -/

/-- C1: for every registry state and every buffer of capacity ≥ 1, each of
the three report functions leaves a null terminator in the buffer; for a
null buffer pointer or capacity 0, each returns the negative sentinel -1
without writing to the buffer. -/
theorem memm_reports_null_terminated (s : memm) (buf : List Char) :
    (1 ≤ buf.length →
      nulChar ∈ (memm_get_stats_string false buf s).2 ∧
      nulChar ∈ (memm_get_allocations_string false buf s).2 ∧
      nulChar ∈ (memm_get_leaks_string false buf s).2) ∧
    (∀ b : List Char,
      memm_get_stats_string true b s = (-1, b) ∧
      memm_get_allocations_string true b s = (-1, b) ∧
      memm_get_leaks_string true b s = (-1, b)) ∧
    (buf.length = 0 →
      memm_get_stats_string false buf s = (-1, buf) ∧
      memm_get_allocations_string false buf s = (-1, buf) ∧
      memm_get_leaks_string false buf s = (-1, buf)) := by
  refine ⟨?_, ?_, ?_⟩
  · intro hlen
    exact ⟨memm_get_stats_string_nul buf s hlen,
      memm_get_allocations_string_nul buf s hlen,
      memm_get_leaks_string_nul buf s hlen⟩
  · intro b
    refine ⟨?_, ?_, ?_⟩ <;>
      simp [memm_get_stats_string, memm_get_allocations_string,
        memm_get_leaks_string, memm_report_core]
  · intro h0
    refine ⟨?_, ?_, ?_⟩ <;>
      simp [memm_get_stats_string, memm_get_allocations_string,
        memm_get_leaks_string, memm_report_core, h0]

/-- C1 witness: a capacity-3 buffer and the empty buffer on the initial
state. -/
theorem memm_reports_null_terminated_witness :
    (nulChar ∈ (memm_get_stats_string false ['a', 'b', 'c'] memm_init).2 ∧
      nulChar ∈ (memm_get_allocations_string false ['a', 'b', 'c'] memm_init).2 ∧
      nulChar ∈ (memm_get_leaks_string false ['a', 'b', 'c'] memm_init).2) ∧
    (memm_get_stats_string true ['x'] memm_init = (-1, ['x']) ∧
      memm_get_allocations_string true ['x'] memm_init = (-1, ['x']) ∧
      memm_get_leaks_string true ['x'] memm_init = (-1, ['x'])) ∧
    (memm_get_stats_string false [] memm_init = (-1, []) ∧
      memm_get_allocations_string false [] memm_init = (-1, []) ∧
      memm_get_leaks_string false [] memm_init = (-1, [])) :=
  ⟨(memm_reports_null_terminated memm_init ['a', 'b', 'c']).1 (by decide),
   (memm_reports_null_terminated memm_init ['a', 'b', 'c']).2.1 ['x'],
   (memm_reports_null_terminated memm_init []).2.2 rfl⟩

/-- C7: when the buffer capacity is insufficient to hold the full report
with its terminator (capacity ≤ untruncated report length), each report
function returns exactly `capacity - 1` with the buffer truncated but
null-terminated, while a null buffer or zero capacity yields a negative
return. -/
theorem memm_reports_truncated_return (s : memm) (buf : List Char)
    (hlen : 1 ≤ buf.length) :
    (buf.length ≤ (memm_stats_text s).length →
      (memm_get_stats_string false buf s).1 = (buf.length : Int) - 1 ∧
      nulChar ∈ (memm_get_stats_string false buf s).2) ∧
    (buf.length ≤ (memm_alloc_report s).length →
      (memm_get_allocations_string false buf s).1 = (buf.length : Int) - 1 ∧
      nulChar ∈ (memm_get_allocations_string false buf s).2) ∧
    (buf.length ≤ (memm_leak_report s).length →
      (memm_get_leaks_string false buf s).1 = (buf.length : Int) - 1 ∧
      nulChar ∈ (memm_get_leaks_string false buf s).2) ∧
    (∀ b : List Char,
      (memm_get_stats_string true b s).1 < 0 ∧
      (memm_get_allocations_string true b s).1 < 0 ∧
      (memm_get_leaks_string true b s).1 < 0 ∧
      (b.length = 0 →
        (memm_get_stats_string false b s).1 < 0 ∧
        (memm_get_allocations_string false b s).1 < 0 ∧
        (memm_get_leaks_string false b s).1 < 0)) := by
  refine ⟨?_, ?_, ?_, ?_⟩
  · intro h
    refine ⟨?_, memm_get_stats_string_nul buf s hlen⟩
    rw [memm_get_stats_string_ret buf s hlen]
    omega
  · intro h
    refine ⟨?_, memm_get_allocations_string_nul buf s hlen⟩
    rw [memm_get_allocations_string_ret buf s hlen]
    omega
  · intro h
    refine ⟨?_, memm_get_leaks_string_nul buf s hlen⟩
    rw [memm_get_leaks_string_ret buf s hlen]
    omega
  · intro b
    refine ⟨?_, ?_, ?_, ?_⟩
    · simp [memm_get_stats_string]
    · simp [memm_get_allocations_string, memm_report_core]
    · simp [memm_get_leaks_string, memm_report_core]
    · intro h0
      refine ⟨?_, ?_, ?_⟩ <;>
        simp [memm_get_stats_string, memm_get_allocations_string,
          memm_get_leaks_string, memm_report_core, h0]

/-- C7 witness: a capacity-2 buffer on the initial state, whose reports
are all longer than 2 characters. -/
theorem memm_reports_truncated_return_witness :
    ((memm_get_stats_string false ['a', 'b'] memm_init).1
        = ((['a', 'b'] : List Char).length : Int) - 1 ∧
      nulChar ∈ (memm_get_stats_string false ['a', 'b'] memm_init).2) ∧
    ((memm_get_allocations_string false ['a', 'b'] memm_init).1
        = ((['a', 'b'] : List Char).length : Int) - 1 ∧
      nulChar ∈ (memm_get_allocations_string false ['a', 'b'] memm_init).2) ∧
    ((memm_get_leaks_string false ['a', 'b'] memm_init).1
        = ((['a', 'b'] : List Char).length : Int) - 1 ∧
      nulChar ∈ (memm_get_leaks_string false ['a', 'b'] memm_init).2) := by
  have h := memm_reports_truncated_return memm_init ['a', 'b'] (by decide)
  have hlen2 : (['a', 'b'] : List Char).length = 2 := rfl
  refine ⟨h.1 ?_, h.2.1 ?_, h.2.2.1 ?_⟩
  · have hh : ("=== MEMORY STATISTICS ===\n" : String).length = 26 := rfl
    unfold memm_stats_text
    simp only [String.length_append]
    omega
  · have hh : ("=== CURRENT ALLOCATIONS ===\n" : String).length = 28 := rfl
    unfold memm_alloc_report memm_full_report
    simp only [String.length_append]
    omega
  · have hh : ("=== MEMORY LEAK REPORT ===\n" : String).length = 27 := rfl
    unfold memm_leak_report memm_full_report
    simp only [String.length_append]
    omega
